import Mathlib

/-!
Shallow embedding of `cdx_toolkit/__init__.py` (a client for web-archive CDX
index services) and verification of its specification claims.

Modelling conventions:
* JSON values are the inductive `J`; Python `dict`s built by the code keep
  insertion order, as Python dicts do.  JSON numbers are modelled as integers
  (the code only consumes integer-valued fields).
* The network is an oracle passed in as data: `myrequests_get` consumes a list
  of per-attempt outcomes (`NetEvent`), and the engines consume per-endpoint
  oracle functions.  An empty / too-short event list models a request that is
  still inside the indefinite retry loop (`retrying` / fuel exhaustion).
* Python exceptions are the `PyErr` inductive; fallible code returns `Except`.
* `json.loads` is a parameter (`parse : String → Except Unit J`) of the
  response normalizer, instantiated with concrete finite functions in
  witnesses; the branch tests on the raw text (`startsWith`) are kept.
-/

namespace CdxToolkit

/-- JSON-ish values. `obj` keys are arbitrary values because the code builds
dicts whose keys come from a decoded header row (`obj[f] = l.pop(0)`). -/
inductive J where
  | null : J
  | bool : Bool → J
  | num : Int → J
  | str : String → J
  | arr : List J → J
  | obj : List (J × J) → J

mutual

/-- Structural equality of JSON values (Python `==` on decoded values). -/
def J.beq : J → J → Bool
  | J.null, J.null => true
  | J.bool a, J.bool b => a == b
  | J.num a, J.num b => a == b
  | J.str a, J.str b => a == b
  | J.arr xs, J.arr ys => J.beqList xs ys
  | J.obj xs, J.obj ys => J.beqPairs xs ys
  | _, _ => false

def J.beqList : List J → List J → Bool
  | [], [] => true
  | x :: xs, y :: ys => J.beq x y && J.beqList xs ys
  | _, _ => false

def J.beqPairs : List (J × J) → List (J × J) → Bool
  | [], [] => true
  | (k₁, v₁) :: xs, (k₂, v₂) :: ys => J.beq k₁ k₂ && J.beq v₁ v₂ && J.beqPairs xs ys
  | _, _ => false

end

instance : BEq J := ⟨J.beq⟩

/-- Python exception classes raised (or caught) by the code. -/
inductive PyErr where
  | valueError       -- ValueError, incl. both "cannot decode response" raises
  | jsonDecodeError  -- json.decoder.JSONDecodeError escaping the jsonl branch
  | keyError         -- KeyError (caught by the array-branch except clause)
  | indexError       -- IndexError from list.pop(0) on an empty list
  | typeError        -- TypeError from iterating a non-iterable
  | attributeError   -- AttributeError from .pop on a non-list
  | runtimeError     -- RuntimeError "invalid url of some sort"
  | httpError        -- requests HTTPError from resp.raise_for_status()
  | requestException -- any other requests.exceptions.RequestException
deriving DecidableEq, Repr

/-- One attempt outcome of `requests.get` inside `myrequests_get`:
a response with a status code and (parsed) body, a builtin `ConnectionError`,
or some other `requests.exceptions.RequestException`. -/
inductive NetEvent where
  | resp : Nat → J → NetEvent
  | connError : NetEvent
  | reqException : NetEvent

/-- Result of `myrequests_get`: a returned response, a raised exception, or
still looping (the supplied attempt list ran out while retrying). -/
inductive FetchOutcome where
  | ok : Nat → J → FetchOutcome
  | raised : PyErr → FetchOutcome
  | retrying : FetchOutcome

/-- Embedding of `myrequests_get(url, params)` over the list of attempt outcomes.
`hasPage` is `'page' in params`.  Returns the outcome together with the number
of `time.sleep(1)` calls performed.  Classification order follows the source:
400-without-page raises RuntimeError; 400/404 are returned as-is; 502/503/504
sleep and retry; other 4xx/5xx raise via `raise_for_status` (re-raised by the
RequestException handler); other statuses are returned; a builtin
ConnectionError sleeps and retries; any other RequestException is re-raised. -/
def myrequests_get (hasPage : Bool) : List NetEvent → FetchOutcome × Nat
  | [] => (.retrying, 0)
  | .resp s b :: rest =>
      if s = 400 ∧ hasPage = false then (.raised .runtimeError, 0)
      else if s = 400 ∨ s = 404 then (.ok s b, 0)
      else if s = 502 ∨ s = 503 ∨ s = 504 then
        let r := myrequests_get hasPage rest
        (r.1, r.2 + 1)
      else if 400 ≤ s ∧ s < 600 then (.raised .httpError, 0)
      else (.ok s b, 0)
  | .connError :: rest =>
      let r := myrequests_get hasPage rest
      (r.1, r.2 + 1)
  | .reqException :: _ => (.raised .requestException, 0)

/-- Python `int(x)` on the values `showNumPages` can meet. -/
def pyInt : J → Except PyErr Int
  | .num n => .ok n
  | .bool b => .ok (if b then 1 else 0)
  | .str s =>
      match s.toInt? with
      | some n => .ok n
      | none => .error .valueError
  | _ => .error .typeError

/-- Embedding of `showNumPages(r)`: a dict body reads `int(j.get('blocks', 0))`; an int
body is returned as-is (Python `bool` is an `int` subclass); anything else
raises the "surprised by showNumPages value" ValueError. -/
def showNumPages (j : J) : Except PyErr Int :=
  match j with
  | .obj kvs =>
      pyInt (((kvs.find? (fun kv => kv.1 == J.str "blocks")).map Prod.snd).getD (J.num 0))
  | .num n => .ok n
  | .bool b => .ok (if b then 1 else 0)
  | _ => .error .valueError

/-- The constant `lines_per_page = 3000`. -/
def lines_per_page : Int := 3000

/-- Embedding of `pages_to_samples(pages)`.  The source computes with Python floats; at the
magnitudes involved (`pages - 1.0`, `pages - 0.5`, `* 3000`, `int(...)`) every
intermediate value is exactly representable, so the embedding uses exact
integer arithmetic: `(p - 0.5) * 3000 = 3000p - 1500` exactly. -/
def pages_to_samples (pages : Int) : Int :=
  if pages > 1 then (pages - 1) * lines_per_page
  else if pages ≥ 1 then pages * lines_per_page - 1500
  else pages * lines_per_page

/-! ## Response normalizer: `cdx_to_json` -/

/-- A raw HTTP response as `cdx_to_json` sees it: status code and body text. -/
structure TextResp where
  status_code : Nat
  text : String

/-- Python `str.startswith(pre)`: prefix test on the character sequence. -/
def startswith (s pre : String) : Bool := pre.data.isPrefixOf s.data

/-- Python `str.splitlines` restricted to `\n` separators: like `splitOn`,
but a trailing newline does not produce a final empty piece, and the empty
string yields no lines. -/
def splitlines (s : String) : List String :=
  let ps := s.splitOn "\n"
  if ps.getLast? = some "" then ps.dropLast else ps

/-- The jsonl loop: `for l in lines: ret.append(json.loads(l))`.  A line that
fails to parse raises `json.decoder.JSONDecodeError`, which is not caught in
this branch of the source. -/
def loadLines (parse : String → Except Unit J) : List String → Except PyErr (List J)
  | [] => .ok []
  | l :: rest =>
      match parse l with
      | .error _ => .error .jsonDecodeError
      | .ok j => (loadLines parse rest).map (fun js => j :: js)

/-- Python `obj[k] = v` on an insertion-ordered dict: overwrite in place if
the key is present, else append. -/
def dictSet (kvs : List (J × J)) (k v : J) : List (J × J) :=
  if kvs.any (fun kv => J.beq kv.1 k) then
    kvs.map (fun kv => if J.beq kv.1 k then (k, v) else kv)
  else kvs ++ [(k, v)]

/-- Python `for x in j`: lists iterate elements, strings iterate one-character
strings, dicts iterate keys; other values raise TypeError. -/
def iterElems : J → Except PyErr (List J)
  | .arr xs => .ok xs
  | .str s => .ok (s.data.map (fun c => J.str (String.mk [c])))
  | .obj kvs => .ok (kvs.map Prod.fst)
  | _ => .error .typeError

/-- Python `j.pop(0)`: on a list, remove and return the head (IndexError when
empty); on a dict, pop the entry with key `0` (KeyError when absent); other
values have no `pop` taking these arguments usefully (AttributeError). -/
def popFirst : J → Except PyErr (J × J)
  | .arr [] => .error .indexError
  | .arr (x :: xs) => .ok (x, .arr xs)
  | .obj kvs =>
      match kvs.find? (fun kv => J.beq kv.1 (J.num 0)) with
      | some kv => .ok (kv.2, .obj (kvs.eraseP (fun p => J.beq p.1 (J.num 0))))
      | none => .error .keyError
  | _ => .error .attributeError

/-- The inner loop of the array branch:
`obj = dict(); for f in fields: obj[f] = l.pop(0)`, threading the mutated
row `l`. -/
def zipRowAux : List J → J → List (J × J) → Except PyErr (List (J × J))
  | [], _, acc => .ok acc
  | f :: fs, l, acc =>
      match popFirst l with
      | .error e => .error e
      | .ok (v, l') => zipRowAux fs l' (dictSet acc f v)

/-- The outer loop of the array branch: one output dict per remaining row;
`fields` is re-iterated for every row (so it is only demanded when at least
one row exists, as in the source). -/
def buildRows (fields : J) : List J → Except PyErr (List J)
  | [] => .ok []
  | l :: ls =>
      match iterElems fields with
      | .error e => .error e
      | .ok fs =>
          match zipRowAux fs l [] with
          | .error e => .error e
          | .ok kvs => (buildRows fields ls).map (fun js => J.obj kvs :: js)

/-- Embedding of `cdx_to_json(resp)`, with `json.loads` supplied as `parse`.
404 yields `[]`; a body starting with a brace is decoded line by line; a body
starting with neither a brace nor a bracket raises the "cannot decode"
ValueError; otherwise the body is parsed, its first element popped as the
header (JSONDecodeError and KeyError are converted to the second "cannot
decode" ValueError; IndexError and friends escape), and the remaining rows
are zipped against the header. -/
def cdx_to_json (parse : String → Except Unit J) (resp : TextResp) : Except PyErr (List J) :=
  if resp.status_code = 404 then .ok []
  else if startswith resp.text "\x7b" then loadLines parse (splitlines resp.text)
  else if startswith resp.text "[" then
    match parse resp.text with
    | .error _ => .error .valueError
    | .ok j =>
        match popFirst j with
        | .error .keyError => .error .valueError
        | .error e => .error e
        | .ok (fields, lines) =>
            match iterElems lines with
            | .error e => .error e
            | .ok ls => buildRows fields ls
  else .error .valueError

/-! ## Bounded query engine: `CDXFetcher.get`

Endpoints are indexed by position in `index_list`.  The network and
normalizer are abstracted into an oracle `server : Nat → Int → List α`
mapping (endpoint index, current value of the mutable `limit` parameter) to
the normalized records of that endpoint's single fetched page; runs in which
the fetch or the decode raises are outside this oracle.  In the source
`'limit'` is always present in `params` (a caller-absent limit defaults to
10000), so the decrement-and-break step is unconditional. -/

/-- The endpoint loop of `CDXFetcher.get`: extend with the page, decrement
the shared limit, and break out of the loop once it is `≤ 0`. -/
def CDXFetcher.get_loop {α : Type} (server : Nat → Int → List α) :
    List Nat → Int → List α
  | [], _ => []
  | e :: es, lim =>
      let objs := server e lim
      objs ++ (if lim - objs.length ≤ 0 then [] else CDXFetcher.get_loop server es (lim - objs.length))

/-- Embedding of `CDXFetcher.get` over `n` endpoints with initial limit `limit`. -/
def CDXFetcher.get {α : Type} (server : Nat → Int → List α) (n : Nat) (limit : Int) : List α :=
  CDXFetcher.get_loop server (List.range n) limit

/-! ## Paginated iteration engine: `CDXFetcherIter` -/

/-- Outcome of one page fetch as the iterator sees it after
`myrequests_get` + `cdx_to_json`: HTTP 400 (page number exceeded), or a
normalized record list (404 appears as `page []`).  Runs in which the fetch
raises or retries forever are outside this oracle. -/
inductive ServResult (α : Type) where
  | exceeded : ServResult α
  | page : List α → ServResult α
deriving DecidableEq, Repr

/-- The status strings returned by `CDXFetcher.get_for_iter`. -/
inductive GFIStatus where
  | lastEndpoint
  | lastPage
  | ok
deriving DecidableEq, Repr

/-- Iterator state: `self.endpoint`, `self.page` (`-1` is the before-first-
page sentinel), `params.get('limit')`, and the record buffer
`self.cdx_objs`. -/
structure IterState (α : Type) where
  endpoint : Nat
  page : Int
  lim : Option Int
  buf : List α
deriving DecidableEq, Repr

/-- Embedding of `CDXFetcher.get_for_iter(endpoint, page, params)`.  The page oracle
`server` receives (endpoint index, page number, current limit parameter).
Returns the status, the records, and the updated limit parameter. -/
def CDXFetcher.get_for_iter {α : Type} (n : Nat) (server : Nat → Int → Option Int → ServResult α)
    (endpoint : Nat) (page : Int) (lim : Option Int) :
    GFIStatus × List α × Option Int :=
  if n ≤ endpoint then (.lastEndpoint, [], lim)
  else if lim = some 0 then (.lastEndpoint, [], lim)
  else
    match server endpoint page lim with
    | .exceeded => (.lastPage, [], lim)
    | .page recs => (.ok, recs, lim.map (fun v => v - recs.length))

/-- Embedding of `CDXFetcherIter.get_more`: increment the page, fetch, return the updated
state on `'last endpoint'`, advance to the next endpoint on `'last page'`,
and otherwise extend the buffer and loop (the source loop has no early exit
after buffering records).  `fuel` bounds the number of loop iterations;
`none` models a run that exceeds it. -/
def CDXFetcherIter.get_more {α : Type} (n : Nat) (server : Nat → Int → Option Int → ServResult α) :
    Nat → IterState α → Option (IterState α)
  | 0, _ => none
  | fuel + 1, st =>
      match CDXFetcher.get_for_iter n server st.endpoint (st.page + 1) st.lim with
      | (.lastEndpoint, _, _) => some { st with page := st.page + 1 }
      | (.lastPage, _, l) => CDXFetcherIter.get_more n server fuel ⟨st.endpoint + 1, -1, l, st.buf⟩
      | (.ok, objs, l) =>
          CDXFetcherIter.get_more n server fuel ⟨st.endpoint, st.page + 1, l, st.buf ++ objs⟩

/-- Embedding of `CDXFetcherIter.__next__`: pop the buffer head if any; otherwise run
`get_more` and either deliver the new head or raise StopIteration
(`some none`).  The outer `none` propagates `get_more` fuel exhaustion. -/
def CDXFetcherIter.next {α : Type} (n : Nat) (server : Nat → Int → Option Int → ServResult α)
    (gmFuel : Nat) (st : IterState α) : Option (Option (α × IterState α)) :=
  match st.buf with
  | r :: rest => some (some (r, { st with buf := rest }))
  | [] =>
      match CDXFetcherIter.get_more n server gmFuel st with
      | none => none
      | some st' =>
          match st'.buf with
          | [] => some none
          | r :: rest => some (some (r, { st' with buf := rest }))

/-- The iterator state built by `CDXFetcherIter.__init__` before its eager
`get_more` call: endpoint 0, page `-1`, the caller's limit, empty buffer. -/
def CDXFetcherIter.initState {α : Type} (lim : Option Int) : IterState α :=
  ⟨0, -1, lim, []⟩

/-- Repeatedly call `__next__`, collecting delivered records until
StopIteration.  `k` bounds the number of deliveries considered. -/
def CDXFetcherIter.drain {α : Type} (n : Nat) (server : Nat → Int → Option Int → ServResult α)
    (gmFuel : Nat) : Nat → IterState α → Option (List α)
  | 0, _ => none
  | k + 1, st =>
      match CDXFetcherIter.next n server gmFuel st with
      | none => none
      | some none => some []
      | some (some (r, st')) => (CDXFetcherIter.drain n server gmFuel k st').map (fun l => r :: l)

/-- A finite upstream described by a table: `table[e]` is the list of pages
of endpoint `e`; any page number beyond it (and any endpoint beyond the
table) answers HTTP 400.  The limit parameter is ignored, matching
`CDXFetcher.items` runs where the caller set no limit. -/
def serverOfTable {α : Type} (table : List (List (List α))) :
    Nat → Int → Option Int → ServResult α :=
  fun e p _ =>
    match table[e]? with
    | none => .exceeded
    | some pages =>
        if p < 0 then .exceeded
        else
          match pages[p.toNat]? with
          | some recs => .page recs
          | none => .exceeded

/-- All records of a page table in endpoint order, then page order, then
intra-page order. -/
def flatten2 {α : Type} (table : List (List (List α))) : List α :=
  (table.map List.flatten).flatten

/-- Enough `get_more` fuel to traverse a whole table: one call per page,
one `'last page'` call per endpoint, one final `'last endpoint'` call. -/
def tableCost {α : Type} (table : List (List (List α))) : Nat :=
  (table.map (fun ps => ps.length + 1)).sum + 1

/-- The `tableCost` of the residual run that starts at endpoint `e`. -/
def tableCostFrom {α : Type} (table : List (List (List α))) (e : Nat) : Nat :=
  ((table.drop e).map (fun ps => ps.length + 1)).sum + 1

/-- The page count `showNumPages` extracts from a body, defaulting to 0 when
it would raise (used only to phrase sums over well-formed bodies). -/
def pagesD (b : J) : Int :=
  match showNumPages b with
  | .ok p => p
  | .error _ => 0

/-! ## Size estimation engine: `CDXFetcher.get_size_estimate` -/

/-- Result of running an engine whose network layer may raise or retry
forever. -/
inductive RunOutcome (α : Type) where
  | done : α → RunOutcome α
  | raised : PyErr → RunOutcome α
  | hung : RunOutcome α
deriving DecidableEq, Repr

/-- The endpoint loop of `get_size_estimate`: each endpoint's network
attempts are one `List NetEvent`; a 200 response adds `showNumPages` of its
body, any other returned status is silently ignored. -/
def CDXFetcher.size_loop (hasPage : Bool) : List (List NetEvent) → Int → RunOutcome Int
  | [], acc => .done acc
  | evs :: rest, acc =>
      match (myrequests_get hasPage evs).1 with
      | .retrying => .hung
      | .raised e => .raised e
      | .ok s b =>
          if s = 200 then
            match showNumPages b with
            | .error e => .raised e
            | .ok p => CDXFetcher.size_loop hasPage rest (acc + p)
          else CDXFetcher.size_loop hasPage rest acc

/-- Embedding of `CDXFetcher.get_size_estimate(url, as_pages, ...)`.  `hasPage` records
whether the caller's extra kwargs contained `'page'` (they do not by
default: the params are `url` and `showNumPages`). -/
def CDXFetcher.get_size_estimate (hasPage : Bool) (evss : List (List NetEvent))
    (as_pages : Bool) : RunOutcome Int :=
  match CDXFetcher.size_loop hasPage evss 0 with
  | .done pages => .done (if as_pages then pages else pages_to_samples pages)
  | .raised e => .raised e
  | .hung => .hung

/-! ## `CDXFetcherIter.__init__` and its mutable default parameter map

`def __init__(self, cdxfetcher, params=\x7b\x7d)` creates ONE dict object at
function-definition time; every call that omits `params` receives that same
object, and the constructor mutates it (`self.params['page'] = self.page`)
after checking `if 'page' in params: raise ValueError(...)`. -/

/-- One construction against the current contents of the shared default
parameter dict: the reserved-page check, then the `'page'` write. -/
def CDXFetcherIter.init_params (d : List (String × Int)) :
    Except PyErr (List (String × Int)) :=
  if d.any (fun kv => kv.1 == "page") then .error .valueError
  else .ok (d ++ [("page", -1)])

/-- A sequence of constructions of `CDXFetcherIter` that all omit the
`params` argument, threading the shared default dict through; `true` records
a construction that passed the reserved-page check. -/
def CDXFetcherIter.constructions : Nat → List (String × Int) → List Bool
  | 0, _ => []
  | k + 1, d =>
      match CDXFetcherIter.init_params d with
      | .ok d' => true :: CDXFetcherIter.constructions k d'
      | .error _ => false :: CDXFetcherIter.constructions k d

/-! ## Concrete `json.loads` fragments used to exercise the normalizer -/

/-- The function `json.loads` restricted to the body `"[]"` (the empty JSON array). -/
def parse0 : String → Except Unit J :=
  fun s => if s = "[]" then .ok (.arr []) else .error ()

/-- The function `json.loads` restricted to the jsonl lines and the header-plus-rows array
body used by the concrete normalizer examples. -/
def parseW : String → Except Unit J :=
  fun s =>
    if s = "\x7b\"url\":\"a\"\x7d" then .ok (.obj [(.str "url", .str "a")])
    else if s = "\x7b\"url\":\"b\"\x7d" then .ok (.obj [(.str "url", .str "b")])
    else if s = "[[\"url\",\"timestamp\"],[\"a\",1],[\"b\",2]]" then
      .ok (.arr [.arr [.str "url", .str "timestamp"],
                 .arr [.str "a", .num 1], .arr [.str "b", .num 2]])
    else .error ()

/-- A page oracle that honours the limit parameter: page 0 returns exactly
`max(limit, 0)` records, later pages answer page-exceeded. -/
def limitServer : Nat → Int → Option Int → ServResult Nat :=
  fun _ p lim =>
    match lim with
    | none => ServResult.exceeded
    | some v => if p = 0 then ServResult.page (List.replicate v.toNat 0) else ServResult.exceeded

/-! # Theorems -/

/-! ## C3: `myrequests_get` on statuses 400 and 404 -/

/-- C3: a 400 response when the request parameters contain no page key raises
the permanent invalid-query RuntimeError; with a page key present a 400
response — and a 404 response either way — is returned immediately (ignoring
any later attempts, with no retry sleep and no exception), and the two cases
reach the caller with their distinct status codes 400 and 404. -/
theorem myrequests_get_400_404 :
    (∀ (b : J) (rest : List NetEvent),
      myrequests_get false (NetEvent.resp 400 b :: rest) = (.raised .runtimeError, 0)) ∧
    (∀ (b : J) (rest : List NetEvent),
      myrequests_get true (NetEvent.resp 400 b :: rest) = (.ok 400 b, 0)) ∧
    (∀ (hasPage : Bool) (b : J) (rest : List NetEvent),
      myrequests_get hasPage (NetEvent.resp 404 b :: rest) = (.ok 404 b, 0)) := by
  refine ⟨fun b rest => ?_, fun b rest => ?_, fun hasPage b rest => ?_⟩ <;>
    simp [myrequests_get]

/-! ## C4: `myrequests_get` on connection-level failures -/

/-- Connection errors are swallowed one at a time: each one sleeps once and
retries. -/
theorem myrequests_get_conn_swallow (hasPage : Bool) (k : Nat) (rest : List NetEvent) :
    myrequests_get hasPage (List.replicate k NetEvent.connError ++ rest)
      = ((myrequests_get hasPage rest).1, (myrequests_get hasPage rest).2 + k) := by
  induction k with
  | zero => simp
  | succ k ih =>
      simp only [List.replicate_succ, List.cons_append, List.append_eq, myrequests_get, ih,
        Prod.mk.injEq]
      exact ⟨trivial, by omega⟩

/-- C4: a connection-level failure is transient — after any run of `k`
builtin `ConnectionError`s the layer has slept `k` extra times and behaves
exactly as on the remaining attempts; in particular after `k` connection
errors and nothing else it is still retrying (the failure is never
surfaced, for every finite `k`). -/
theorem myrequests_get_connection_retry :
    ∀ (hasPage : Bool) (k : Nat) (rest : List NetEvent),
      myrequests_get hasPage (List.replicate k NetEvent.connError ++ rest)
          = ((myrequests_get hasPage rest).1, (myrequests_get hasPage rest).2 + k) ∧
      myrequests_get hasPage (List.replicate k NetEvent.connError)
          = (.retrying, k) := by
  intro hasPage k rest
  refine ⟨myrequests_get_conn_swallow hasPage k rest, ?_⟩
  have h := myrequests_get_conn_swallow hasPage k []
  simpa [myrequests_get] using h

/-! ## C5: `pages_to_samples` -/

/-- C5: on every non-negative integer page count the conversion returns
`(p - 1) * 3000` for `p > 1` (the float arithmetic `int((p - 1.0) * 3000)`
is exact there), `int((1 - 0.5) * 3000) = 1500` for `p = 1` and `0` for
`p = 0`; in particular `0 ↦ 0`, `1 ↦ 1500`, `2 ↦ 3000`, `5 ↦ 12000`. -/
theorem pages_to_samples_spec :
    (∀ p : Nat, pages_to_samples (p : Int) =
        if 1 < (p : Int) then ((p : Int) - 1) * 3000
        else if (p : Int) = 1 then 1500 else 0) ∧
    pages_to_samples 0 = 0 ∧ pages_to_samples 1 = 1500 ∧
    pages_to_samples 2 = 3000 ∧ pages_to_samples 5 = 12000 := by
  refine ⟨fun p => ?_, by decide, by decide, by decide, by decide⟩
  rcases p with - | - | n
  · decide
  · decide
  · have h1 : (1 : Int) < ((n + 2 : Nat) : Int) := by push_cast; omega
    rw [if_pos h1]
    simp only [pages_to_samples, lines_per_page, if_pos h1]

/-! ## C9: the shared mutable default parameter map -/

/-- Once the shared default dict contains `'page'`, every construction that
omits `params` fails the reserved-page check and leaves the dict as is. -/
theorem constructions_page_stuck (k : Nat) :
    ∀ d : List (String × Int), d.any (fun kv => kv.1 == "page") = true →
      CDXFetcherIter.constructions k d = List.replicate k false := by
  induction k with
  | zero => intro d _; rfl
  | succ k ih =>
      intro d hd
      simp only [CDXFetcherIter.constructions, CDXFetcherIter.init_params, hd, if_true,
        List.replicate_succ]
      exact congrArg (List.cons false) (ih d hd)

/-- C9: constructing `CDXFetcherIter` with the `params` argument omitted
writes the reserved `'page'` key into the one shared default dict, so in any
sequence of `k + 1` such constructions the first passes the reserved-page
check and every later one raises the reserved-page ValueError, although no
caller ever supplied a page parameter. -/
theorem default_params_aliasing :
    ∀ k : Nat, CDXFetcherIter.constructions (k + 1) [] = true :: List.replicate k false := by
  intro k
  simp only [CDXFetcherIter.constructions, CDXFetcherIter.init_params]
  norm_num
  exact constructions_page_stuck k [("page", -1)] (by decide)

/-! ## Shared lemmas about `get_for_iter` and `get_more` -/

/-- The call `get_for_iter` answers `'last endpoint'` exactly when the endpoint index
is past the list or the remaining limit equals zero. -/
theorem get_for_iter_lastEndpoint {α : Type} (n : Nat)
    (server : Nat → Int → Option Int → ServResult α) (e : Nat) (p : Int) (lim : Option Int) :
    (CDXFetcher.get_for_iter n server e p lim).1 = GFIStatus.lastEndpoint ↔
      (n ≤ e ∨ lim = some 0) := by
  unfold CDXFetcher.get_for_iter
  split_ifs with h1 h2
  · simp [h1]
  · simp [h1, h2]
  · cases server e p lim <;> simp [h1, h2]

/-- A `get_more` call only returns on a `'last endpoint'` answer, so the state it
returns is terminal: the endpoint index is past the list or the remaining
limit is exactly zero. -/
theorem get_more_terminal {α : Type} (n : Nat)
    (server : Nat → Int → Option Int → ServResult α) :
    ∀ (fuel : Nat) (st st' : IterState α),
      CDXFetcherIter.get_more n server fuel st = some st' →
      n ≤ st'.endpoint ∨ st'.lim = some 0 := by
  intro fuel
  induction fuel with
  | zero => intro st st' h; simp [CDXFetcherIter.get_more] at h
  | succ fuel ih =>
      intro st st' h
      rw [CDXFetcherIter.get_more] at h
      by_cases h1 : n ≤ st.endpoint
      · simp only [CDXFetcher.get_for_iter, if_pos h1] at h
        obtain rfl : ({ st with page := st.page + 1 } : IterState α) = st' :=
          Option.some.inj h
        exact Or.inl h1
      · by_cases h2 : st.lim = some 0
        · simp only [CDXFetcher.get_for_iter, if_neg h1, if_pos h2] at h
          obtain rfl : ({ st with page := st.page + 1 } : IterState α) = st' :=
            Option.some.inj h
          exact Or.inr h2
        · simp only [CDXFetcher.get_for_iter, if_neg h1, if_neg h2] at h
          cases hsrv : server st.endpoint (st.page + 1) st.lim with
          | exceeded => simp only [hsrv] at h; exact ih _ _ h
          | page recs => simp only [hsrv] at h; exact ih _ _ h

/-- While the remaining limit is strictly negative, `get_more` can only return
by walking past the last endpoint: the `limit == 0` test never matches again
(each page fetch only decreases the limit further). -/
theorem get_more_neglimit {α : Type} (n : Nat)
    (server : Nat → Int → Option Int → ServResult α) :
    ∀ (fuel : Nat) (st st' : IterState α) (v : Int),
      st.lim = some v → v < 0 →
      CDXFetcherIter.get_more n server fuel st = some st' → n ≤ st'.endpoint := by
  intro fuel
  induction fuel with
  | zero => intro st st' v _ _ h; simp [CDXFetcherIter.get_more] at h
  | succ fuel ih =>
      intro st st' v hlim hv h
      rw [CDXFetcherIter.get_more] at h
      by_cases h1 : n ≤ st.endpoint
      · simp only [CDXFetcher.get_for_iter, if_pos h1] at h
        obtain rfl : ({ st with page := st.page + 1 } : IterState α) = st' :=
          Option.some.inj h
        exact h1
      · by_cases h2 : st.lim = some 0
        · rw [hlim] at h2
          exact absurd (Option.some.inj h2) (by omega)
        · simp only [CDXFetcher.get_for_iter, if_neg h1, if_neg h2] at h
          cases hsrv : server st.endpoint (st.page + 1) st.lim with
          | exceeded =>
              simp only [hsrv] at h
              exact ih ⟨st.endpoint + 1, -1, st.lim, st.buf⟩ st' v hlim hv h
          | page recs =>
              simp only [hsrv] at h
              have hlim' : Option.map (fun w => w - ((recs.length : Int))) st.lim
                  = some (v - recs.length) := by rw [hlim]; rfl
              exact ih ⟨st.endpoint, st.page + 1,
                Option.map (fun w => w - ((recs.length : Int))) st.lim, st.buf ++ recs⟩
                st' (v - recs.length) hlim' (by omega) h

/-! ## C10: the terminal tests of `get_for_iter` -/

/-- C10: `get_for_iter` reports `'last endpoint'` without consulting the page
oracle when the endpoint index is at or past the end of the endpoint list
(first conjunct: the result is the same for every `server`) or when the
remaining limit is exactly zero (second conjunct); but with a strictly
negative remaining limit and an in-range endpoint the limit test never
matches — the fetch proceeds (third conjunct) and `get_more` can then only
terminate by running past the last endpoint (fourth conjunct). -/
theorem get_for_iter_terminal_spec :
    (∀ (α : Type) (n : Nat) (server : Nat → Int → Option Int → ServResult α)
        (e : Nat) (p : Int) (lim : Option Int), n ≤ e →
        CDXFetcher.get_for_iter n server e p lim = (.lastEndpoint, [], lim)) ∧
    (∀ (α : Type) (n : Nat) (server : Nat → Int → Option Int → ServResult α)
        (e : Nat) (p : Int),
        CDXFetcher.get_for_iter n server e p (some 0) = (.lastEndpoint, [], some 0)) ∧
    (∀ (α : Type) (n : Nat) (server : Nat → Int → Option Int → ServResult α)
        (e : Nat) (p : Int) (v : Int), e < n → v < 0 →
        (CDXFetcher.get_for_iter n server e p (some v)).1 ≠ GFIStatus.lastEndpoint) ∧
    (∀ (α : Type) (n : Nat) (server : Nat → Int → Option Int → ServResult α)
        (fuel : Nat) (st st' : IterState α) (v : Int),
        st.lim = some v → v < 0 →
        CDXFetcherIter.get_more n server fuel st = some st' → n ≤ st'.endpoint) := by
  refine ⟨?_, ?_, ?_, ?_⟩
  · intro α n server e p lim he
    simp [CDXFetcher.get_for_iter, he]
  · intro α n server e p
    unfold CDXFetcher.get_for_iter
    split_ifs with h1 h2
    · rfl
    · rfl
    · exact absurd rfl h2
  · intro α n server e p v he hv
    rw [Ne, get_for_iter_lastEndpoint]
    push_neg
    exact ⟨by omega, by simp; omega⟩
  · intro α n server fuel st st' v hlim hv h
    exact get_more_neglimit n server fuel st st' v hlim hv h

/-- Witness for C10 at a concrete input: a two-endpoint table iterated with
remaining limit `-1`; `get_more` walks every remaining page and endpoint and
terminates with endpoint index `2`. -/
theorem get_for_iter_terminal_spec_witness :
    (2 : Nat) ≤ (IterState.endpoint (⟨2, 0, some (-3), [1, 2]⟩ : IterState Nat)) :=
  get_for_iter_terminal_spec.2.2.2 Nat 2 (serverOfTable [[[1]], [[2]]]) 6
    ⟨0, -1, some (-1), []⟩ ⟨2, 0, some (-3), [1, 2]⟩ (-1) rfl (by decide) (by decide)

/-! ## C2: what a refill step actually does -/

/-- C2 (amended): whenever the buffer is empty and a next element is
requested, the iteration engine runs refill steps until the terminal
`'last endpoint'` outcome — all endpoints exhausted or remaining limit
exactly zero (first conjunct) — buffering the records of every page fetched
along the way; if the buffer is still empty at that point it reports
end-of-sequence (second conjunct), and otherwise it delivers the first
buffered record (third conjunct).  The refill is not stopped by the buffer
becoming non-empty. -/
theorem refill_runs_to_terminal :
    (∀ (α : Type) (n : Nat) (server : Nat → Int → Option Int → ServResult α)
        (fuel : Nat) (st st' : IterState α),
        CDXFetcherIter.get_more n server fuel st = some st' →
        n ≤ st'.endpoint ∨ st'.lim = some 0) ∧
    (∀ (α : Type) (n : Nat) (server : Nat → Int → Option Int → ServResult α)
        (fuel : Nat) (st st' : IterState α),
        st.buf = [] → CDXFetcherIter.get_more n server fuel st = some st' → st'.buf = [] →
        CDXFetcherIter.next n server fuel st = some none) ∧
    (∀ (α : Type) (n : Nat) (server : Nat → Int → Option Int → ServResult α)
        (fuel : Nat) (st st' : IterState α) (r : α) (rest : List α),
        st.buf = [] → CDXFetcherIter.get_more n server fuel st = some st' →
        st'.buf = r :: rest →
        CDXFetcherIter.next n server fuel st = some (some (r, { st' with buf := rest }))) := by
  refine ⟨?_, ?_, ?_⟩
  · intro α n server fuel st st' h
    exact get_more_terminal n server fuel st st' h
  · intro α n server fuel st st' hbuf hgm hbuf'
    rw [CDXFetcherIter.next, hbuf]
    simp only [hgm, hbuf']
  · intro α n server fuel st st' r rest hbuf hgm hbuf'
    rw [CDXFetcherIter.next, hbuf]
    simp only [hgm, hbuf']

/-- Witness for C2 at a concrete input: one endpoint whose only page is
empty; the refill reaches the terminal state with an empty buffer and
`__next__` reports end-of-sequence. -/
theorem refill_runs_to_terminal_witness :
    CDXFetcherIter.next 1 (serverOfTable [[([] : List Nat)]]) 3
      (CDXFetcherIter.initState none) = some none :=
  refill_runs_to_terminal.2.1 Nat 1 (serverOfTable [[[]]]) 3
    (CDXFetcherIter.initState none) ⟨1, 0, none, []⟩ rfl (by decide) rfl

/-- Counterexample to C2 as stated: a single endpoint serving pages `[10]`
then `[20]`.  The very first refill does not stop after page 0 yields a
record — it goes on to fetch page 1 and the page-exceeded page, ending with
both pages' records buffered (`[10, 20]`, not `[10]`).  The engine is eager,
not lazy. -/
theorem refill_not_lazy_counterexample :
    CDXFetcherIter.get_more 1 (serverOfTable [[[10], [20]]]) 4
        (CDXFetcherIter.initState none) = some ⟨1, 0, none, [10, 20]⟩ ∧
    (CDXFetcherIter.get_more 1 (serverOfTable [[[10], [20]]]) 4
        (CDXFetcherIter.initState none)).map IterState.buf ≠ some [10] := by
  refine ⟨by decide, by decide⟩

/-! ## Running `get_more` over a finite page table -/

/-- Stepping through the remaining pages of one endpoint: starting `d` pages
before the end of endpoint `e`'s page list, `get_more` appends those pages to
the buffer in page order, consumes the `'last page'` answer, and continues at
the next endpoint with the page cursor reset to `-1`. -/
theorem get_more_endpoint_step {α : Type} (table : List (List (List α)))
    (e : Nat) (pages : List (List α)) (he : table[e]? = some pages) :
    ∀ (d j : Nat), j + d = pages.length →
    ∀ (b : List α) (fuel : Nat), d + 1 ≤ fuel →
      CDXFetcherIter.get_more table.length (serverOfTable table) fuel ⟨e, (j : Int) - 1, none, b⟩
        = CDXFetcherIter.get_more table.length (serverOfTable table) (fuel - (d + 1))
            ⟨e + 1, -1, none, b ++ (pages.drop j).flatten⟩ := by
  have hel : e < table.length := by
    by_contra hc
    push_neg at hc
    rw [List.getElem?_eq_none hc] at he
    exact Option.noConfusion he
  intro d
  induction d with
  | zero =>
      intro j hj b fuel hfuel
      obtain ⟨f, rfl⟩ : ∃ f, fuel = f + 1 := ⟨fuel - 1, by omega⟩
      have hj' : j = pages.length := by omega
      subst hj'
      rw [CDXFetcherIter.get_more]
      have hgfi : CDXFetcher.get_for_iter table.length (serverOfTable table) e
          (((pages.length : Nat) : Int) - 1 + 1) none = (GFIStatus.lastPage, [], none) := by
        unfold CDXFetcher.get_for_iter
        rw [if_neg (by omega), if_neg (by simp)]
        have hsrv : serverOfTable table e (((pages.length : Nat) : Int) - 1 + 1) none
            = ServResult.exceeded := by
          simp only [serverOfTable, he]
          rw [if_neg (by omega)]
          rw [show Int.toNat (((pages.length : Nat) : Int) - 1 + 1) = pages.length from by omega]
          rw [List.getElem?_eq_none (le_refl _)]
        rw [hsrv]
      simp only [hgfi]
      rw [List.drop_length]
      simp
  | succ d ih =>
      intro j hj b fuel hfuel
      obtain ⟨f, rfl⟩ : ∃ f, fuel = f + 1 := ⟨fuel - 1, by omega⟩
      have hjlt : j < pages.length := by omega
      have hgfi : CDXFetcher.get_for_iter table.length (serverOfTable table) e
          ((j : Int) - 1 + 1) none = (GFIStatus.ok, pages[j], none) := by
        unfold CDXFetcher.get_for_iter
        rw [if_neg (by omega), if_neg (by simp)]
        have hsrv : serverOfTable table e ((j : Int) - 1 + 1) none
            = ServResult.page pages[j] := by
          simp only [serverOfTable, he]
          rw [if_neg (by omega)]
          rw [show Int.toNat ((j : Int) - 1 + 1) = j from by omega]
          rw [List.getElem?_eq_getElem hjlt]
        rw [hsrv]
        rfl
      rw [CDXFetcherIter.get_more]
      simp only [hgfi]
      have hstep := ih (j + 1) (by omega) (b ++ pages[j]) f (by omega)
      rw [show (((j + 1 : Nat)) : Int) - 1 = (j : Int) - 1 + 1 from by push_cast; ring] at hstep
      rw [hstep]
      have hfa : f - (d + 1) = f + 1 - (d + 1 + 1) := by omega
      have hbufa : b ++ pages[j] ++ (List.drop (j + 1) pages).flatten
          = b ++ (List.drop j pages).flatten := by
        rw [List.drop_eq_getElem_cons hjlt, List.flatten_cons, List.append_assoc]
      rw [hfa, hbufa]

/-- Running `get_more` from the start of endpoint `e` with no limit set
traverses every remaining endpoint in order and returns the terminal state
with every remaining record appended to the buffer in endpoint order, then
page order, then intra-page order. -/
theorem get_more_table_from {α : Type} (table : List (List (List α))) :
    ∀ (d e : Nat), e + d = table.length →
    ∀ (b : List α) (fuel : Nat), tableCostFrom table e ≤ fuel →
      CDXFetcherIter.get_more table.length (serverOfTable table) fuel ⟨e, -1, none, b⟩
        = some ⟨table.length, 0, none, b ++ flatten2 (table.drop e)⟩ := by
  intro d
  induction d with
  | zero =>
      intro e he b fuel hfuel
      have he' : e = table.length := by omega
      subst he'
      have hge1 : 1 ≤ tableCostFrom table table.length := by unfold tableCostFrom; omega
      obtain ⟨f, rfl⟩ : ∃ f, fuel = f + 1 := ⟨fuel - 1, by omega⟩
      rw [CDXFetcherIter.get_more]
      have hgfi : CDXFetcher.get_for_iter table.length (serverOfTable table) table.length
          ((-1 : Int) + 1) none = (GFIStatus.lastEndpoint, [], none) := by
        unfold CDXFetcher.get_for_iter
        rw [if_pos (le_refl _)]
      simp only [hgfi]
      rw [List.drop_length]
      simp [flatten2]
  | succ d ih =>
      intro e he b fuel hfuel
      have hel : e < table.length := by omega
      have hepages : table[e]? = some table[e] := List.getElem?_eq_getElem hel
      have hge1 : 1 ≤ tableCostFrom table (e + 1) := by unfold tableCostFrom; omega
      have hcost : tableCostFrom table e
          = (table[e].length + 1) + tableCostFrom table (e + 1) := by
        unfold tableCostFrom
        rw [List.drop_eq_getElem_cons hel]
        simp only [List.map_cons, List.sum_cons]
        omega
      have hstep := get_more_endpoint_step table e table[e] hepages table[e].length 0
        (by omega) b fuel (by omega)
      rw [show (((0 : Nat)) : Int) - 1 = (-1 : Int) from by norm_num] at hstep
      rw [List.drop_zero] at hstep
      rw [hstep]
      rw [ih (e + 1) (by omega) (b ++ table[e].flatten) (fuel - (table[e].length + 1)) (by omega)]
      have hflat : flatten2 (table.drop e)
          = table[e].flatten ++ flatten2 (table.drop (e + 1)) := by
        unfold flatten2
        rw [List.drop_eq_getElem_cons hel, List.map_cons, List.flatten_cons]
      rw [hflat, List.append_assoc]

/-- The endpoint index never decreases across a `get_more` call, whatever the
page oracle answers. -/
theorem get_more_endpoint_mono {α : Type} (n : Nat)
    (server : Nat → Int → Option Int → ServResult α) :
    ∀ (fuel : Nat) (st st' : IterState α),
      CDXFetcherIter.get_more n server fuel st = some st' → st.endpoint ≤ st'.endpoint := by
  intro fuel
  induction fuel with
  | zero => intro st st' h; simp [CDXFetcherIter.get_more] at h
  | succ fuel ih =>
      intro st st' h
      rw [CDXFetcherIter.get_more] at h
      by_cases h1 : n ≤ st.endpoint
      · simp only [CDXFetcher.get_for_iter, if_pos h1] at h
        obtain rfl : ({ st with page := st.page + 1 } : IterState α) = st' :=
          Option.some.inj h
        exact le_refl _
      · by_cases h2 : st.lim = some 0
        · simp only [CDXFetcher.get_for_iter, if_neg h1, if_pos h2] at h
          obtain rfl : ({ st with page := st.page + 1 } : IterState α) = st' :=
            Option.some.inj h
          exact le_refl _
        · simp only [CDXFetcher.get_for_iter, if_neg h1, if_neg h2] at h
          cases hsrv : server st.endpoint (st.page + 1) st.lim with
          | exceeded =>
              simp only [hsrv] at h
              exact le_trans (Nat.le_succ _) (ih ⟨st.endpoint + 1, -1, st.lim, st.buf⟩ st' h)
          | page recs =>
              simp only [hsrv] at h
              exact ih ⟨st.endpoint, st.page + 1,
                Option.map (fun w => w - ((recs.length : Int))) st.lim, st.buf ++ recs⟩ st' h

/-- From a state already past the last endpoint, repeated `__next__` calls
deliver exactly the buffered records in order and then report
end-of-sequence. -/
theorem drain_terminal {α : Type} (n : Nat)
    (server : Nat → Int → Option Int → ServResult α) :
    ∀ (l : List α) (st : IterState α), n ≤ st.endpoint → st.buf = l →
      CDXFetcherIter.drain n server 1 (l.length + 1) st = some l := by
  intro l
  induction l with
  | nil =>
      intro st hend hbuf
      rw [CDXFetcherIter.drain]
      have hgm : CDXFetcherIter.get_more n server 1 st = some { st with page := st.page + 1 } := by
        rw [CDXFetcherIter.get_more]
        simp only [CDXFetcher.get_for_iter, if_pos hend]
      rw [CDXFetcherIter.next, hbuf]
      simp only [hgm, hbuf]
  | cons r rest ih =>
      intro st hend hbuf
      rw [CDXFetcherIter.drain, CDXFetcherIter.next, hbuf]
      simp only [List.length_cons]
      rw [ih { st with buf := rest } hend rfl]
      rfl

/-! ## C8: visiting order and delivery order -/

/-- C8: for any finite page table, the eager refill started by the first
`__next__` fills the buffer with exactly the table's records in endpoint-list
order, then ascending page order within an endpoint, then intra-page order
(first conjunct), and the subsequent `__next__` calls deliver exactly that
sequence before end-of-sequence (second conjunct); moreover, for every page
oracle, the endpoint index never decreases across a refill — an earlier
endpoint is never revisited (third conjunct). -/
theorem iteration_order_spec :
    (∀ (α : Type) (table : List (List (List α))),
        CDXFetcherIter.get_more table.length (serverOfTable table) (tableCost table)
            (CDXFetcherIter.initState none)
          = some ⟨table.length, 0, none, flatten2 table⟩) ∧
    (∀ (α : Type) (table : List (List (List α))),
        CDXFetcherIter.drain table.length (serverOfTable table) 1 ((flatten2 table).length + 1)
            ⟨table.length, 0, none, flatten2 table⟩ = some (flatten2 table)) ∧
    (∀ (α : Type) (n : Nat) (server : Nat → Int → Option Int → ServResult α)
        (fuel : Nat) (st st' : IterState α),
        CDXFetcherIter.get_more n server fuel st = some st' →
        st.endpoint ≤ st'.endpoint) := by
  refine ⟨?_, ?_, ?_⟩
  · intro α table
    have h := get_more_table_from table table.length 0 (by omega) [] (tableCost table)
      (by unfold tableCostFrom tableCost; rw [List.drop_zero])
    rw [List.drop_zero] at h
    simpa [CDXFetcherIter.initState] using h
  · intro α table
    exact drain_terminal table.length (serverOfTable table) (flatten2 table)
      ⟨table.length, 0, none, flatten2 table⟩ (le_refl _) rfl
  · intro α n server fuel st st' h
    exact get_more_endpoint_mono n server fuel st st' h

/-- Witness for C8 at a concrete input: a two-endpoint table with pages
`[1, 2]` then `[3]`; the refill never moves the endpoint index backwards. -/
theorem iteration_order_spec_witness :
    (CDXFetcherIter.initState none : IterState Nat).endpoint
      ≤ (⟨2, 0, none, [1, 2, 3]⟩ : IterState Nat).endpoint :=
  iteration_order_spec.2.2 Nat 2 (serverOfTable [[[1, 2]], [[3]]]) 6
    (CDXFetcherIter.initState none) ⟨2, 0, none, [1, 2, 3]⟩ (by decide)

/-! ## C1: the shared result-count limit -/

/-- The endpoint loop of `CDXFetcher.get` keeps its output within the limit
whenever each page honours the limit parameter it was sent (a page fetched
with limit `v` holds at most `max v 0` records). -/
theorem get_loop_le {α : Type} (server : Nat → Int → List α)
    (hserver : ∀ (e : Nat) (v : Int), (server e v).length ≤ v.toNat) :
    ∀ (idxs : List Nat) (lim : Int), 0 ≤ lim →
      ((CDXFetcher.get_loop server idxs lim).length : Int) ≤ lim := by
  intro idxs
  induction idxs with
  | nil => intro lim hlim; simpa [CDXFetcher.get_loop] using hlim
  | cons e es ih =>
      intro lim hlim
      rw [CDXFetcher.get_loop]
      have hlen := hserver e lim
      by_cases hbrk : lim - (server e lim).length ≤ 0
      · rw [if_pos hbrk]
        rw [List.append_nil]
        omega
      · rw [if_neg hbrk]
        have hrec := ih (lim - (server e lim).length) (by omega)
        rw [List.length_append]
        push_cast
        push_cast at hrec
        omega

/-- A `get_more` call preserves the budget invariant when every served page
honours the limit parameter it receives: the remaining limit stays
non-negative and `buffer length + remaining limit` never grows. -/
theorem get_more_budget {α : Type} (n : Nat)
    (server : Nat → Int → Option Int → ServResult α)
    (hserver : ∀ (e : Nat) (p : Int) (v : Int) (recs : List α),
        server e p (some v) = .page recs → recs.length ≤ v.toNat) :
    ∀ (fuel : Nat) (st st' : IterState α) (v : Int),
      st.lim = some v → 0 ≤ v →
      CDXFetcherIter.get_more n server fuel st = some st' →
      ∃ v', st'.lim = some v' ∧ 0 ≤ v' ∧
        ((st'.buf.length : Int)) + v' ≤ st.buf.length + v := by
  intro fuel
  induction fuel with
  | zero => intro st st' v _ _ h; simp [CDXFetcherIter.get_more] at h
  | succ fuel ih =>
      intro st st' v hlim hv h
      rw [CDXFetcherIter.get_more] at h
      by_cases h1 : n ≤ st.endpoint
      · simp only [CDXFetcher.get_for_iter, if_pos h1] at h
        obtain rfl : ({ st with page := st.page + 1 } : IterState α) = st' :=
          Option.some.inj h
        exact ⟨v, hlim, hv, le_refl _⟩
      · by_cases h2 : st.lim = some 0
        · simp only [CDXFetcher.get_for_iter, if_neg h1, if_pos h2] at h
          obtain rfl : ({ st with page := st.page + 1 } : IterState α) = st' :=
            Option.some.inj h
          exact ⟨v, hlim, hv, le_refl _⟩
        · simp only [CDXFetcher.get_for_iter, if_neg h1, if_neg h2] at h
          cases hsrv : server st.endpoint (st.page + 1) st.lim with
          | exceeded =>
              simp only [hsrv] at h
              exact ih ⟨st.endpoint + 1, -1, st.lim, st.buf⟩ st' v hlim hv h
          | page recs =>
              simp only [hsrv] at h
              rw [hlim] at hsrv
              have hlen : recs.length ≤ v.toNat := hserver _ _ _ _ hsrv
              have hlim' : Option.map (fun w => w - ((recs.length : Int))) st.lim
                  = some (v - recs.length) := by rw [hlim]; rfl
              obtain ⟨v', hl', hv', hsum⟩ := ih ⟨st.endpoint, st.page + 1,
                Option.map (fun w => w - ((recs.length : Int))) st.lim, st.buf ++ recs⟩
                st' (v - recs.length) hlim' (by omega) h
              refine ⟨v', hl', hv', ?_⟩
              rw [List.length_append] at hsum
              push_cast at hsum ⊢
              omega

/-- Draining an iterator whose pages honour the limit parameter delivers at
most `buffer length + remaining limit` records. -/
theorem drain_budget {α : Type} (n : Nat)
    (server : Nat → Int → Option Int → ServResult α)
    (hserver : ∀ (e : Nat) (p : Int) (v : Int) (recs : List α),
        server e p (some v) = .page recs → recs.length ≤ v.toNat)
    (gmFuel : Nat) :
    ∀ (k : Nat) (st : IterState α) (v : Int) (l : List α),
      st.lim = some v → 0 ≤ v →
      CDXFetcherIter.drain n server gmFuel k st = some l →
      ((l.length : Int)) ≤ st.buf.length + v := by
  intro k
  induction k with
  | zero => intro st v l _ _ h; simp [CDXFetcherIter.drain] at h
  | succ k ih =>
      intro st v l hlim hv h
      rw [CDXFetcherIter.drain, CDXFetcherIter.next] at h
      cases hbuf : st.buf with
      | cons r rest =>
          rw [hbuf] at h
          simp only [] at h
          obtain ⟨l', hl', rfl⟩ := Option.map_eq_some'.mp h
          have hrec := ih { st with buf := rest } v l' hlim hv hl'
          simp only [List.length_cons]
          push_cast at hrec ⊢
          omega
      | nil =>
          rw [hbuf] at h
          cases hgm : CDXFetcherIter.get_more n server gmFuel st with
          | none =>
              rw [hgm] at h
              simp at h
          | some st₂ =>
              rw [hgm] at h
              simp only [] at h
              obtain ⟨v₂, hl₂, hv₂, hsum₂⟩ :=
                get_more_budget n server hserver gmFuel st st₂ v hlim hv hgm
              rw [hbuf] at hsum₂
              simp only [List.length_nil] at hsum₂
              cases hbuf₂ : st₂.buf with
              | nil =>
                  rw [hbuf₂] at h
                  simp only [] at h
                  obtain rfl : ([] : List α) = l := Option.some.inj h
                  simp only [List.length_nil]
                  push_cast
                  omega
              | cons r rest₂ =>
                  rw [hbuf₂] at h
                  simp only [] at h
                  obtain ⟨l', hl', rfl⟩ := Option.map_eq_some'.mp h
                  have hrec := ih { st₂ with buf := rest₂ } v₂ l' hl₂ hv₂ hl'
                  rw [hbuf₂, List.length_cons] at hsum₂
                  simp only [List.length_cons]
                  push_cast at hrec hsum₂ ⊢
                  omega

/-- C1 (amended): provided every page fetch returns at most the value of the
shared limit parameter sent with that request (at most `max(limit, 0)`
records), a bounded query created with limit `L ≥ 0` returns at most `L`
records (first conjunct), and an iteration created with limit `L ≥ 0`
delivers at most `L` records in total (second conjunct).  Without that
server-side guarantee the totals can exceed `L`, because records are
appended before the limit is re-checked. -/
theorem limit_budget_amended :
    (∀ (α : Type) (server : Nat → Int → List α) (n : Nat) (L : Int),
        (∀ (e : Nat) (v : Int), (server e v).length ≤ v.toNat) → 0 ≤ L →
        ((CDXFetcher.get server n L).length : Int) ≤ L) ∧
    (∀ (α : Type) (n : Nat) (server : Nat → Int → Option Int → ServResult α)
        (gmFuel k : Nat) (L : Int) (st' : IterState α) (l : List α),
        (∀ (e : Nat) (p : Int) (v : Int) (recs : List α),
            server e p (some v) = .page recs → recs.length ≤ v.toNat) → 0 ≤ L →
        CDXFetcherIter.get_more n server gmFuel (CDXFetcherIter.initState (some L)) = some st' →
        CDXFetcherIter.drain n server gmFuel k st' = some l →
        ((l.length : Int)) ≤ L) := by
  constructor
  · intro α server n L hserver hL
    exact get_loop_le server hserver (List.range n) L hL
  · intro α n server gmFuel k L st' l hserver hL hgm hdr
    obtain ⟨v', hl', hv', hsum⟩ :=
      get_more_budget n server hserver gmFuel (CDXFetcherIter.initState (some L)) st' L rfl hL hgm
    have hdrain := drain_budget n server hserver gmFuel k st' v' l hl' hv' hdr
    simp only [CDXFetcherIter.initState, List.length_nil] at hsum
    push_cast at hsum hdrain ⊢
    omega

/-- Witness for C1 at concrete inputs: a server that always returns exactly
as many records as the limit allows; with limit 3 over 2 endpoints the
bounded query returns at most 3 records, and draining a one-endpoint
iteration with limit 2 delivers at most 2 records. -/
theorem limit_budget_amended_witness :
    ((CDXFetcher.get (fun _ v => List.replicate v.toNat 0) 2 3).length : Int) ≤ 3 ∧
    (((([0, 0] : List Nat)).length : Int)) ≤ 2 := by
  constructor
  · exact limit_budget_amended.1 Nat (fun _ v => List.replicate v.toNat 0) 2 3
      (fun e v => by rw [List.length_replicate]) (by decide)
  · exact limit_budget_amended.2 Nat 1 limitServer 2 3 2 ⟨0, 1, some 0, [0, 0]⟩ [0, 0]
      (fun e p v recs hsrv => by
        simp only [limitServer] at hsrv
        split_ifs at hsrv with hp
        cases hsrv
        rw [List.length_replicate])
      (by decide) (by decide) (by decide)

/-- Counterexample to C1 as stated: with limit `L = 1` and a first endpoint
whose page holds 2 records, the bounded query appends the whole page before
re-checking the limit and returns 2 records — more than `L`. -/
theorem limit_overshoot_counterexample :
    CDXFetcher.get (fun _ _ => ([0, 0] : List Nat)) 1 1 = [0, 0] ∧
    ¬ (((CDXFetcher.get (fun _ _ => ([0, 0] : List Nat)) 1 1).length : Int) ≤ 1) := by
  exact ⟨by decide, by decide⟩

/-! ## C6: size estimation -/

/-- A one-shot response with a status below 400 other than 400/404 passes
straight through `myrequests_get`. -/
theorem myrequests_get_single_lt400 (s : Nat) (b : J) (hs : s < 400) :
    myrequests_get false [NetEvent.resp s b] = (.ok s b, 0) := by
  simp only [myrequests_get]
  split_ifs with h1 h2 h3 h4
  · exact absurd h1.1 (by omega)
  · exact absurd h2 (by omega)
  · exact absurd h3 (by omega)
  · exact absurd h4.1 (by omega)
  · rfl

/-- The `get_size_estimate` endpoint loop sums `showNumPages` over exactly
the endpoints that answered 200, when every endpoint answers with a single
response whose status is 200 (with a well-formed body), 404 or another
status below 400. -/
theorem size_loop_sum :
    ∀ (l : List (Nat × J)) (acc : Int),
      (∀ sb ∈ l, (sb.1 = 200 → (showNumPages sb.2).isOk = true) ∧
        (sb.1 = 404 ∨ sb.1 < 400)) →
      CDXFetcher.size_loop false (l.map (fun sb => [NetEvent.resp sb.1 sb.2])) acc
        = .done (acc + (l.map (fun sb => if sb.1 = 200 then pagesD sb.2 else 0)).sum) := by
  intro l
  induction l with
  | nil => intro acc _; simp [CDXFetcher.size_loop]
  | cons sb rest ih =>
      intro acc hl
      obtain ⟨sbP, sbS⟩ := hl sb (List.mem_cons_self sb rest)
      have hrest : ∀ x ∈ rest, (x.1 = 200 → (showNumPages x.2).isOk = true) ∧
          (x.1 = 404 ∨ x.1 < 400) := fun x hx => hl x (List.mem_cons_of_mem sb hx)
      obtain ⟨s, b⟩ := sb
      rw [List.map_cons, CDXFetcher.size_loop]
      rcases sbS with h404 | hlt
      · simp only at h404
        subst h404
        have hfetch : myrequests_get false [NetEvent.resp 404 b] = (.ok 404 b, 0) := by
          simp [myrequests_get]
        rw [hfetch]
        simp only []
        rw [if_neg (by omega)]
        rw [ih acc hrest]
        simp only [List.map_cons, List.sum_cons]
        rw [if_neg (by omega)]
        norm_num
      · simp only at hlt sbP
        rw [myrequests_get_single_lt400 s b hlt]
        simp only []
        by_cases h200 : s = 200
        · rw [if_pos h200]
          have hok : (showNumPages b).isOk = true := sbP h200
          cases hsp : showNumPages b with
          | error e => rw [hsp] at hok; exact absurd hok (by simp [Except.isOk, Except.toBool])
          | ok p =>
              simp only []
              rw [ih (acc + p) hrest]
              simp only [List.map_cons, List.sum_cons]
              rw [if_pos h200]
              have hpd : pagesD b = p := by unfold pagesD; rw [hsp]
              rw [hpd]
              norm_num [Int.add_assoc]
        · rw [if_neg h200]
          rw [ih acc hrest]
          simp only [List.map_cons, List.sum_cons]
          rw [if_neg h200]
          norm_num

/-- C6 (amended): with `as_pages=True`, `get_size_estimate` returns exactly
the sum of per-endpoint page counts over the endpoints whose single response
has status 200; endpoints answering 404 or another status below 400
contribute 0 and raise no error.  (As the counterexample shows, an endpoint
answering 400 — or any retry-exhausting/raising status — does not fit this
error-free scheme.) -/
theorem size_estimate_sum_amended :
    ∀ (l : List (Nat × J)),
      (∀ sb ∈ l, (sb.1 = 200 → (showNumPages sb.2).isOk = true) ∧
        (sb.1 = 404 ∨ sb.1 < 400)) →
      CDXFetcher.get_size_estimate false (l.map (fun sb => [NetEvent.resp sb.1 sb.2])) true
        = .done ((l.map (fun sb => if sb.1 = 200 then pagesD sb.2 else 0)).sum) := by
  intro l hl
  unfold CDXFetcher.get_size_estimate
  rw [size_loop_sum l 0 hl]
  norm_num

/-- Witness for C6 at a concrete input: endpoints answering 200 (7 pages),
404 and 301 yield the sum 7. -/
theorem size_estimate_sum_amended_witness :
    CDXFetcher.get_size_estimate false
        [[NetEvent.resp 200 (J.num 7)], [NetEvent.resp 404 J.null], [NetEvent.resp 301 J.null]]
        true = .done 7 := by
  have h := size_estimate_sum_amended [(200, J.num 7), (404, J.null), (301, J.null)] (by
    intro sb hsb
    fin_cases hsb
    · exact ⟨fun h => rfl, Or.inr (by norm_num)⟩
    · exact ⟨fun h => absurd h (by norm_num), Or.inl rfl⟩
    · exact ⟨fun h => absurd h (by norm_num), Or.inr (by norm_num)⟩)
  simpa using h

/-- Counterexample to C6 as stated: an endpoint answering status 400 does not
silently contribute 0 — the fetch raises the invalid-query RuntimeError
(the size-estimate parameters carry no page key), aborting the whole
estimate. -/
theorem size_estimate_400_counterexample :
    CDXFetcher.get_size_estimate false [[NetEvent.resp 400 J.null]] true
        = .raised .runtimeError ∧
    (RunOutcome.raised PyErr.runtimeError : RunOutcome Int) ≠ .done 0 := by
  exact ⟨rfl, by decide⟩

/-! ## C7: the response normalizer -/

/-- The jsonl loop decodes one value per line when every line parses. -/
theorem loadLines_forall (parse : String → Except Unit J) :
    ∀ (ts : List String) (js : List J),
      List.Forall₂ (fun t j => parse t = Except.ok j) ts js →
      loadLines parse ts = .ok js := by
  intro ts js h
  induction h with
  | nil => rfl
  | cons h₁ h₂ ih => simp [loadLines, h₁, ih, Except.map]

/-- The inner row loop zips pairwise-distinct field names against an
equal-length row, appending to a dict whose keys avoid all field names. -/
theorem zipRowAux_zip :
    ∀ (fields : List J) (row : List J) (acc : List (J × J)),
      (∀ f ∈ fields, acc.any (fun kv => J.beq kv.1 f) = false) →
      List.Pairwise (fun a b => J.beq a b = false) fields →
      row.length = fields.length →
      zipRowAux fields (J.arr row) acc = .ok (acc ++ fields.zip row) := by
  intro fields
  induction fields with
  | nil =>
      intro row acc _ _ _
      simp [zipRowAux]
  | cons f fs ih =>
      intro row acc hfresh hpw hlen
      cases row with
      | nil =>
          simp only [List.length_nil, List.length_cons] at hlen
          omega
      | cons v vs =>
          simp only [zipRowAux, popFirst]
          have hset : dictSet acc f v = acc ++ [(f, v)] := by
            unfold dictSet
            rw [if_neg (by simp [hfresh f (List.mem_cons_self f fs)])]
          rw [hset]
          have hfresh' : ∀ g ∈ fs, (acc ++ [(f, v)]).any (fun kv => J.beq kv.1 g) = false := by
            intro g hg
            rw [List.any_append, hfresh g (List.mem_cons_of_mem f hg)]
            have hfg : J.beq f g = false := (List.pairwise_cons.mp hpw).1 g hg
            simp [hfg]
          rw [ih vs (acc ++ [(f, v)]) hfresh' (List.pairwise_cons.mp hpw).2
            (by simpa using hlen)]
          simp [List.zip_cons_cons, List.append_assoc]

/-- The outer row loop of the array branch builds one dict per row, zipping
the header against each row in order. -/
theorem buildRows_ok :
    ∀ (fields : List J), List.Pairwise (fun a b => J.beq a b = false) fields →
    ∀ (rows : List (List J)), (∀ r ∈ rows, r.length = fields.length) →
      buildRows (J.arr fields) (rows.map J.arr)
        = .ok (rows.map (fun r => J.obj (fields.zip r))) := by
  intro fields hpw rows
  induction rows with
  | nil => intro _; rfl
  | cons r rs ih =>
      intro hlen
      simp only [List.map_cons, buildRows, iterElems]
      rw [zipRowAux_zip fields r [] (fun f hf => rfl) hpw (hlen r (List.mem_cons_self r rs))]
      rw [ih (fun x hx => hlen x (List.mem_cons_of_mem r hx))]
      simp [Except.map]

/-- C7 (amended): the response normalizer returns an empty record list for a
404 response; a body opening with a brace is decoded as one record per
newline-delimited JSON line (line order preserved); a JSON-array body whose
first element is a list of pairwise-distinct field names and whose remaining
elements are equal-length value lists is zipped into records using the
header as keys; a body opening with neither a brace nor a bracket fails with
the "cannot decode" ValueError; but a body that parses to the empty JSON
array fails with an uncaught IndexError, not the decode error. -/
theorem cdx_to_json_spec_amended :
    (∀ (parse : String → Except Unit J) (resp : TextResp),
        resp.status_code = 404 → cdx_to_json parse resp = .ok []) ∧
    (∀ (parse : String → Except Unit J) (resp : TextResp) (js : List J),
        resp.status_code ≠ 404 → startswith resp.text "\x7b" = true →
        List.Forall₂ (fun t j => parse t = Except.ok j) (splitlines resp.text) js →
        cdx_to_json parse resp = .ok js) ∧
    (∀ (parse : String → Except Unit J) (resp : TextResp)
        (fields : List J) (rows : List (List J)),
        resp.status_code ≠ 404 → startswith resp.text "\x7b" = false →
        startswith resp.text "[" = true →
        parse resp.text = .ok (.arr (.arr fields :: rows.map .arr)) →
        List.Pairwise (fun a b => J.beq a b = false) fields →
        (∀ r ∈ rows, r.length = fields.length) →
        cdx_to_json parse resp = .ok (rows.map (fun r => J.obj (fields.zip r)))) ∧
    (∀ (parse : String → Except Unit J) (resp : TextResp),
        resp.status_code ≠ 404 → startswith resp.text "\x7b" = false →
        startswith resp.text "[" = false →
        cdx_to_json parse resp = .error .valueError) ∧
    (∀ (parse : String → Except Unit J) (resp : TextResp),
        resp.status_code ≠ 404 → startswith resp.text "\x7b" = false →
        startswith resp.text "[" = true → parse resp.text = .ok (.arr []) →
        cdx_to_json parse resp = .error .indexError) := by
  refine ⟨?_, ?_, ?_, ?_, ?_⟩
  · intro parse resp h404
    unfold cdx_to_json
    rw [if_pos h404]
  · intro parse resp js h404 hbr hlines
    unfold cdx_to_json
    rw [if_neg h404, if_pos hbr]
    exact loadLines_forall parse _ js hlines
  · intro parse resp fields rows h404 hbr hbk hparse hpw hlen
    unfold cdx_to_json
    rw [if_neg h404, if_neg (by simp [hbr]), if_pos hbk, hparse]
    simp only [popFirst, iterElems]
    exact buildRows_ok fields hpw rows hlen
  · intro parse resp h404 hbr hbk
    unfold cdx_to_json
    rw [if_neg h404, if_neg (by simp [hbr]), if_neg (by simp [hbk])]
  · intro parse resp h404 hbr hbk hparse
    unfold cdx_to_json
    rw [if_neg h404, if_neg (by simp [hbr]), if_pos hbk, hparse]
    simp only [popFirst]

/-- Witness for C7 at a concrete input: the header-plus-rows body
`[["url","timestamp"],["a",1],["b",2]]` is zipped into the two records
`(url: a, timestamp: 1)` and `(url: b, timestamp: 2)`. -/
theorem cdx_to_json_spec_amended_witness :
    cdx_to_json parseW ⟨200, "[[\"url\",\"timestamp\"],[\"a\",1],[\"b\",2]]"⟩
      = .ok [J.obj [(J.str "url", J.str "a"), (J.str "timestamp", J.num 1)],
             J.obj [(J.str "url", J.str "b"), (J.str "timestamp", J.num 2)]] := by
  have h := cdx_to_json_spec_amended.2.2.1 parseW
    ⟨200, "[[\"url\",\"timestamp\"],[\"a\",1],[\"b\",2]]"⟩
    [J.str "url", J.str "timestamp"]
    [[J.str "a", J.num 1], [J.str "b", J.num 2]]
    (by decide) (by rfl) (by rfl) (by rfl)
    (by
      constructor
      · intro b hb
        rcases List.mem_singleton.mp hb with rfl
        rfl
      · exact List.pairwise_singleton _ _)
    (by intro r hr; fin_cases hr <;> rfl)
  exact h

/-- Counterexample to C7 as stated: the body `"[]"` (the empty JSON array)
matches neither recognized wire shape, yet the normalizer does not fail with
the decode ValueError — `lines.pop(0)` raises an uncaught IndexError. -/
theorem cdx_to_json_empty_array_counterexample :
    cdx_to_json parse0 ⟨200, "[]"⟩ = .error .indexError ∧
    PyErr.indexError ≠ PyErr.valueError := by
  exact ⟨rfl, by decide⟩

end CdxToolkit
